import Mathlib

/-!
Shallow embedding of the bag-packing and inventory-allocation engine of the
thread-manufacturing dashboard.

* `DailyBags` embeds `src/src/components/DailyBags.tsx`: the continuous greedy
  packer `simulateCreateBags`, the inventory top-up `topUpWithInventory`, the
  ledger update in `handleCreateBags`, and the Complete/Partial badge.
* `InvMgmt` embeds the manual exact allocation `applyManualTopUp` of
  `src/src/components/InventoryManagement.tsx`.
* `OrdersApi` embeds the order create/delete endpoints of
  `src/src/app/api/orders/route.ts` (inventory decrement on POST, inventory
  restore on DELETE).

Meter quantities are JavaScript numbers used only with `+`, `-`, `min`, `max`
and comparisons, so they are modelled as `Int`.
-/

namespace DailyBags

/-- An order row as consumed by the `DailyBags` component
(`Order` interface, DailyBags.tsx lines 47-55; `priority`, `dueDate` and
`status` only affect the UI table sort and are omitted). -/
structure Order where
  id : String
  customer : String
  product : String
  meters : Int
  deriving Repr, DecidableEq

/-- The projection `{ id, customer, meters }` that `simulateCreateBags` takes of
each order (DailyBags.tsx lines 215-216). -/
structure RemOrder where
  id : String
  customer : String
  meters : Int
  deriving Repr, DecidableEq

/-- The `BagItem` tagged union (DailyBags.tsx lines 62-64). -/
inductive BagItem where
  | order (orderId : String) (customer : String) (meters : Int)
  | inventory (reelId : String) (meters : Int)
  deriving Repr, DecidableEq

/-- The meters carried by a bag item. -/
def BagItem.meters : BagItem → Int
  | .order _ _ m => m
  | .inventory _ m => m

/-- A bag (DailyBags.tsx lines 66-71). -/
structure Bag where
  bagNumber : Nat
  items : List BagItem
  totalMeters : Int
  filledFromInventory : Int
  deriving Repr, DecidableEq

/-- An inventory reel (DailyBags.tsx lines 57-60). -/
structure InventoryReel where
  id : String
  metersAvailable : Int
  deriving Repr, DecidableEq

/-- Sum of the meters of a list of bag items. -/
def itemsSum (items : List BagItem) : Int :=
  (items.map BagItem.meters).sum

/-- Result of filling one bag: the items pushed, the remaining capacity, and
the remaining orders. -/
structure PackResult where
  items : List BagItem
  cap : Int
  rem : List RemOrder
  deriving Repr, DecidableEq

/-- The inner `for` loop of `simulateCreateBags` (DailyBags.tsx lines 223-235).
The loop index `i` is never incremented: each iteration either splices out
element `0` (when the order fits) or zeroes the capacity (splitting the order),
so the loop always works on the head of `remainingOrders`. -/
def packBag (cap : Int) : List RemOrder → PackResult
  | [] => ⟨[], cap, []⟩
  | o :: rest =>
    if cap ≤ 0 then ⟨[], cap, o :: rest⟩
    else if o.meters ≤ cap then
      let r := packBag (cap - o.meters) rest
      ⟨.order o.id o.customer o.meters :: r.items, r.cap, r.rem⟩
    else
      ⟨[.order o.id o.customer cap], 0, { o with meters := o.meters - cap } :: rest⟩

/-- Termination measure for the outer `while` loop: each pending order
contributes one unit plus its (truncated) meters. -/
def remMeasure (l : List RemOrder) : Nat :=
  (l.map fun o => 1 + o.meters.toNat).sum

/-- The outer `while` loop of `simulateCreateBags` (DailyBags.tsx lines
218-249), with explicit fuel.  Each iteration opens a bag at full capacity,
fills it with `packBag`, records `totalMeters = targetMetersPerBag - capacity`,
and continues on the remaining orders.  The source's early `break` (lines
246-248) only skips re-testing an already empty list, so it does not change the
result. -/
def bagsAux (target : Int) : Nat → List RemOrder → Nat → List Bag
  | _, [], _ => []
  | 0, _ :: _, _ => []
  | fuel + 1, o :: rest, num =>
    let r := packBag target (o :: rest)
    { bagNumber := num, items := r.items, totalMeters := target - r.cap,
      filledFromInventory := 0 } :: bagsAux target fuel r.rem (num + 1)

/-- `simulateCreateBags` (DailyBags.tsx lines 211-252): greedy fill that splits
orders across bags.  `remMeasure` strictly decreases at every iteration of the
`while` loop whenever `0 < target`, so `remMeasure + 1` units of fuel make the
embedding agree with the source loop (which only terminates in that case). -/
def simulateCreateBags (target : Int) (orders : List Order) : List Bag :=
  let rem := orders.map fun o => RemOrder.mk o.id o.customer o.meters
  bagsAux target (remMeasure rem + 1) rem 1

/-- `handleCreateBags` (DailyBags.tsx lines 254-283): runs the simulation on
the sorted orders and stores the result with `setBags(baseBags)` (line 268),
discarding whatever bags were in the ledger before.  The previous ledger
contents are a parameter to make that explicit. -/
def handleCreateBags (target : Int) (oldBags : Option (List Bag))
    (sortedOrders : List Order) : List Bag :=
  simulateCreateBags target sortedOrders

/-- The Complete/Partial badge (DailyBags.tsx lines 646-650):
`bag.totalMeters >= targetMetersPerBag ? "Complete" : "Partial"`. -/
def bagBadge (target : Int) (b : Bag) : String :=
  if target ≤ b.totalMeters then "Complete" else "Partial"

/-- Result of the top-up scan: items appended, meters filled, updated reels. -/
structure TopResult where
  items : List BagItem
  filled : Int
  inv : List InventoryReel
  deriving Repr, DecidableEq

/-- The two loops of `topUpWithInventory` fused (DailyBags.tsx lines 301-317):
scan the sorted reels while `need > 0`, skip empty reels, take
`min(metersAvailable, need)` from each other reel, and push one inventory item
per positive take (every take is positive, matching the `take > 0` guard of the
second loop). -/
def topUpLoop : Int → List InventoryReel → TopResult
  | _, [] => ⟨[], 0, []⟩
  | need, r :: rs =>
    if need ≤ 0 then ⟨[], 0, r :: rs⟩
    else if r.metersAvailable ≤ 0 then
      let t := topUpLoop need rs
      ⟨t.items, t.filled, r :: t.inv⟩
    else
      let take := min r.metersAvailable need
      let t := topUpLoop (need - take) rs
      ⟨.inventory r.id take :: t.items, take + t.filled,
        { r with metersAvailable := r.metersAvailable - take } :: t.inv⟩

/-- The ascending stable sort `invCopy.sort((a, b) => a.metersAvailable -
b.metersAvailable)` (DailyBags.tsx line 300).  A stable sort is determined
uniquely by the comparator, so insertion sort is a faithful model of the
ECMAScript stable `Array.prototype.sort`. -/
def sortInv (l : List InventoryReel) : List InventoryReel :=
  l.insertionSort fun a b => a.metersAvailable ≤ b.metersAvailable

/-- `topUpWithInventory` (DailyBags.tsx lines 285-337) as a function of the
state it reads (bags, the index of the partial bag, the working inventory) to
the state it writes.  The guard on line 286 (no bags / no recorded index) and
an out-of-range index leave the state unchanged; the source is only invoked
with the index of the last bag just produced.  Note the sorted copy of the
inventory is what gets stored back (line 325). -/
def topUpWithInventory (target : Int) (bags : List Bag) (idx : Nat)
    (inv : List InventoryReel) : List Bag × List InventoryReel :=
  match bags[idx]? with
  | none => (bags, inv)
  | some bag =>
    let need := max 0 (target - bag.totalMeters)
    if need = 0 then (bags, inv)
    else
      let t := topUpLoop need (sortInv inv)
      let bag' : Bag :=
        { bag with items := bag.items ++ t.items,
                   totalMeters := bag.totalMeters + t.filled,
                   filledFromInventory := bag.filledFromInventory + t.filled }
      (bags.set idx bag', t.inv)

/-- Total positive meters available in a list of reels (empty reels are skipped
by the loop, and negative balances contribute nothing). -/
def posSum (l : List InventoryReel) : Int :=
  (l.map fun r => max 0 r.metersAvailable).sum

/-- The updated bag built at DailyBags.tsx lines 319-321 (items appended,
`totalMeters` and `filledFromInventory` increased by the filled amount). -/
def topUpBag (target : Int) (bag : Bag) (inv : List InventoryReel) : Bag :=
  let t := topUpLoop (max 0 (target - bag.totalMeters)) (sortInv inv)
  { bag with items := bag.items ++ t.items,
             totalMeters := bag.totalMeters + t.filled,
             filledFromInventory := bag.filledFromInventory + t.filled }

/-- Meters a bag item contributes to order `oid` (inventory items contribute
nothing). -/
def itemOrderMeters (oid : String) : BagItem → Int
  | .order i _ m => if i = oid then m else 0
  | .inventory _ _ => 0

/-- Meters attributed to order `oid` in a list of bag items. -/
def itemsOrderMeters (oid : String) (items : List BagItem) : Int :=
  (items.map (itemOrderMeters oid)).sum

/-- Meters still pending for order `oid` in the working list. -/
def remOrderMeters (oid : String) (l : List RemOrder) : Int :=
  (l.map fun o => if o.id = oid then o.meters else 0).sum

/-- Meters requested by order `oid` in the input orders. -/
def ordersMeters (oid : String) (l : List Order) : Int :=
  (l.map fun o => if o.id = oid then o.meters else 0).sum

/-- Meters attributed to order `oid` across a list of bags. -/
def bagsOrderMeters (oid : String) (bs : List Bag) : Int :=
  (bs.map fun b => itemsOrderMeters oid b.items).sum

/-- Whether a bag contains an item sourced from order `oid`. -/
def hasOrderItem (oid : String) (b : Bag) : Bool :=
  b.items.any fun it => match it with
    | .order i _ _ => i = oid
    | _ => false

end DailyBags

namespace InvMgmt

/-- An inventory record as used by the richer `DailyBags` variant in
InventoryManagement.tsx (`id`, `metersAvailable`, plus `reels`, `reelSize`,
`brandName`, `productName`).  `reels` and `reelSize` are always populated by
the loaders (`?? 0` fallbacks), so they are modelled as plain integers; the
display names may be absent. -/
structure Reel where
  id : String
  metersAvailable : Int
  reels : Int
  reelSize : Int
  brandName : Option String
  productName : Option String
  deriving Repr, DecidableEq

/-- The `BagItem` union of the InventoryManagement.tsx variant: inventory
items additionally carry an optional label. -/
inductive MItem where
  | order (orderId : String) (customer : String) (meters : Int)
  | inventory (reelId : String) (meters : Int) (label : Option String)
  deriving Repr, DecidableEq

/-- Whether an item is inventory-sourced. -/
def MItem.isInv : MItem → Bool
  | .inventory _ _ _ => true
  | _ => false

/-- A bag of the InventoryManagement.tsx variant. -/
structure MBag where
  bagNumber : Nat
  items : List MItem
  totalMeters : Int
  filledFromInventory : Int
  deriving Repr, DecidableEq

/-- First inventory record with the given id
(`workingInventory.find(r => r.id === reelId)`). -/
def lookupReel : List Reel → String → Option Reel
  | [], _ => none
  | r :: rs, rid => if r.id = rid then some r else lookupReel rs rid

/-- The label attached to a consumed inventory item (InventoryManagement.tsx
line 1651): built only when both display names are truthy (JavaScript `&&`
treats the empty string as falsy). -/
def labelOf (r : Reel) : Option String :=
  match r.brandName, r.productName with
  | some b, some p =>
    if b = "" ∨ p = "" then none
    else some (b ++ " — " ++ p ++ " (" ++ toString r.reelSize ++ " m)")
  | _, _ => none

/-- The inventory item pushed for one allocation entry
(`{ kind: "inventory", reelId, meters, label }`, line 1652). -/
def mkAllocItem (r : Reel) (take : Int) : MItem :=
  .inventory r.id (take * r.reelSize) (labelOf r)

/-- A stock record after `take` reels are consumed (lines 1649-1650):
`reels -= take; metersAvailable = reels * reelSize`. -/
def decReel (r : Reel) (take : Int) : Reel :=
  { r with reels := r.reels - take,
           metersAvailable := (r.reels - take) * r.reelSize }

/-- One iteration of the allocation loop (lines 1636-1653): find the stock
record by id (abort if missing), abort if more reels are requested than
available, otherwise decrement it in place and emit the inventory item. -/
def consumeAlloc : List Reel → String → Int → Option (MItem × List Reel)
  | [], _, _ => none
  | r :: rs, rid, take =>
    if r.id = rid then
      if r.reels < take then none
      else some (mkAllocItem r take, decReel r take :: rs)
    else
      (consumeAlloc rs rid take).map fun p => (p.1, r :: p.2)

/-- The `for .. of entries` loop (lines 1636-1653): entries are processed in
order; any failure aborts the whole operation (the mutated local copy is
discarded, so no caller-visible state changes — all-or-nothing). -/
def allocLoop : List (String × Int) → List Reel → Option (List MItem × List Reel)
  | [], inv => some ([], inv)
  | e :: es, inv =>
    match consumeAlloc inv e.1 e.2 with
    | none => none
    | some (it, inv') =>
      match allocLoop es inv' with
      | none => none
      | some (its, inv'') => some (it :: its, inv'')

/-- `sumMeters` (lines 1623-1628): requested reels times the reel size of the
record found in the working inventory (`?? 0` when the id is unknown). -/
def sumMetersOf (inv : List Reel) (entries : List (String × Int)) : Int :=
  entries.foldl
    (fun s e => s + e.2 * (((lookupReel inv e.1).map fun r => r.reelSize).getD 0)) 0

/-- Whether one allocation entry can be served from the inventory: its stock
record exists and holds at least the requested reels. -/
def entryOk (inv : List Reel) (e : String × Int) : Prop :=
  match lookupReel inv e.1 with
  | some r => e.2 ≤ r.reels
  | none => False

instance (inv : List Reel) (e : String × Int) : Decidable (entryOk inv e) := by
  unfold entryOk
  cases lookupReel inv e.1 with
  | none => exact isFalse fun h => h
  | some r => exact inferInstanceAs (Decidable (e.2 ≤ r.reels))

/-- `applyManualTopUp` (InventoryManagement.tsx lines 1615-1666) as a function
of the state it reads to the state it writes; `none` models every
early-return `toast.error` path (ValidationError — the local copies are
discarded, so nothing is mutated).  Entries with non-positive requested reels
are dropped first (line 1621); the allocation must sum to exactly the bag's
shortfall (lines 1629-1632); then each entry consumes whole reels from its
stock record, aborting on unknown ids or over-requests. -/
def applyManualTopUp (target : Int) (bags : List MBag) (idx : Nat)
    (allocations : List (String × Int)) (inv : List Reel) :
    Option (List MBag × List Reel) :=
  match bags[idx]? with
  | none => none
  | some bag =>
    let missing := max 0 (target - bag.totalMeters)
    let entries := allocations.filter fun e => 0 < e.2
    let sm := sumMetersOf inv entries
    if sm = missing then
      match allocLoop entries inv with
      | none => none
      | some (newItems, inv') =>
        some (bags.set idx
          { bag with items := bag.items ++ newItems,
                     totalMeters := bag.totalMeters + sm,
                     filledFromInventory := bag.filledFromInventory + sm },
          inv')
    else none

end InvMgmt

namespace OrdersApi

/-- A row of the `inventory_items` table (only the columns the order
endpoints touch). -/
structure InvRow where
  id : Nat
  productId : Nat
  reels : Int
  deriving Repr, DecidableEq

/-- A row of the `orders` table (only the columns the endpoints touch). -/
structure OrderRow where
  id : Nat
  customer : String
  productId : Nat
  reels : Int
  status : String
  deriving Repr, DecidableEq

/-- The database state the order endpoints read and write: the product ids
that exist, the inventory rows, and the order rows. -/
structure Db where
  products : List Nat
  inventory : List InvRow
  orders : List OrderRow
  deriving Repr, DecidableEq

/-- First inventory row for a product (`select .. where productId = .. limit 1`). -/
def lookupInv : List InvRow → Nat → Option InvRow
  | [], _ => none
  | r :: rs, pid => if r.productId = pid then some r else lookupInv rs pid

/-- First order row with the given id (`select .. where id = .. limit 1`). -/
def lookupOrder : List OrderRow → Nat → Option OrderRow
  | [], _ => none
  | o :: os, oid => if o.id = oid then some o else lookupOrder os oid

/-- Models `!customer || customer.trim().length === 0`: the customer string is
rejected exactly when it contains no non-whitespace character. -/
def allWhitespace (s : String) : Bool :=
  s.toList.all fun c => c.isWhitespace

/-- Fresh primary key for an inserted order (SQLite auto-increment: one more
than the largest id in use). -/
def nextOrderId (orders : List OrderRow) : Nat :=
  (orders.map fun o => o.id).foldr max 0 + 1

/-- `availableReels` (src/src/app/api/orders/route.ts line 144):
`inventory?.reels || 0` — the reels of the product's inventory row, 0 when the
product has none. -/
def availReels (db : Db) (productId : Nat) : Int :=
  ((lookupInv db.inventory productId).map fun r => r.reels).getD 0

/-- `POST /api/orders` (src/src/app/api/orders/route.ts lines 81-238)
restricted to the data it reads and writes: reject a blank customer or a
non-positive reel count; reject an unknown product; reject when
`availableReels` cannot cover the request; otherwise insert the order and set
the product's inventory rows to `availableReels - reels` (lines 177-185).
The stored customer is the trimmed input; the trimming does not affect
inventory and is not modelled. -/
def createOrder (db : Db) (customer : String) (productId : Nat) (reels : Int) :
    Option (Db × Nat) :=
  if allWhitespace customer then none
  else if reels ≤ 0 then none
  else if productId ∈ db.products then
    if availReels db productId < reels then none
    else
      some ({ db with
        orders := db.orders
          ++ [⟨nextOrderId db.orders, customer, productId, reels, "pending"⟩],
        inventory := db.inventory.map fun r =>
          if r.productId = productId then
            { r with reels := availReels db productId - reels }
          else r }, nextOrderId db.orders)
  else none

/-- `DELETE /api/orders?id=..` (src/src/app/api/orders/route.ts lines
393-455): find the order (404 when absent), delete it, and add its reels back
to the product's inventory rows (`inventory[0].reels + orderData.reels`, lines
427-440); when the product has no inventory row the restore is skipped. -/
def deleteOrder (db : Db) (oid : Nat) : Option Db :=
  match lookupOrder db.orders oid with
  | none => none
  | some od =>
    let remaining := db.orders.filter fun o => o.id != oid
    match lookupInv db.inventory od.productId with
    | none => some { db with orders := remaining }
    | some inv0 =>
      some { db with
        orders := remaining,
        inventory := db.inventory.map fun r =>
          if r.productId = od.productId then { r with reels := inv0.reels + od.reels }
          else r }

end OrdersApi

namespace DailyBags

@[simp] theorem itemsSum_nil : itemsSum [] = 0 := rfl

@[simp] theorem itemsSum_cons (it : BagItem) (l : List BagItem) :
    itemsSum (it :: l) = it.meters + itemsSum l := by
  simp [itemsSum]

theorem itemsSum_append (l₁ l₂ : List BagItem) :
    itemsSum (l₁ ++ l₂) = itemsSum l₁ + itemsSum l₂ := by
  simp [itemsSum]

/-- The items pushed into one bag account exactly for the capacity consumed:
`totalMeters = targetMetersPerBag - capacity` (line 237) therefore equals the
sum of the pushed items' meters. -/
theorem packBag_itemsSum (cap : Int) (l : List RemOrder) :
    itemsSum (packBag cap l).items = cap - (packBag cap l).cap := by
  induction l generalizing cap with
  | nil => simp [packBag]
  | cons o rest ih =>
    by_cases h1 : cap ≤ 0
    · simp [packBag, h1]
    · by_cases h2 : o.meters ≤ cap
      · have := ih (cap - o.meters)
        simp [packBag, h1, h2, BagItem.meters]
        omega
      · simp [packBag, h1, h2, BagItem.meters]

/-- Capacity never goes negative: an order is only subtracted when it fits. -/
theorem packBag_cap_nonneg (cap : Int) (l : List RemOrder) (h : 0 ≤ cap) :
    0 ≤ (packBag cap l).cap := by
  induction l generalizing cap with
  | nil => simpa [packBag]
  | cons o rest ih =>
    by_cases h1 : cap ≤ 0
    · simpa [packBag, h1]
    · by_cases h2 : o.meters ≤ cap
      · have := ih (cap - o.meters) (by omega)
        simpa [packBag, h1, h2]
      · simp [packBag, h1, h2]

/-- If orders remain after the bag-filling loop exits, the capacity was used
up (the loop only stops early when `capacity > 0` fails). -/
theorem packBag_cap_of_rem (cap : Int) (l : List RemOrder)
    (h : (packBag cap l).rem ≠ []) : (packBag cap l).cap ≤ 0 := by
  induction l generalizing cap with
  | nil => simp [packBag] at h
  | cons o rest ih =>
    by_cases h1 : cap ≤ 0
    · simpa [packBag, h1]
    · by_cases h2 : o.meters ≤ cap
      · have := ih (cap - o.meters)
        simp [packBag, h1, h2] at h ⊢
        exact this h
      · simp [packBag, h1, h2]

/-- Filling one bag conserves each order's meters: what went into the bag plus
what is still pending equals what was pending before (splitting an order moves
part of its meters into the bag and leaves the rest at the head of the
pending list). -/
theorem packBag_orderMeters (oid : String) (cap : Int) (l : List RemOrder) :
    itemsOrderMeters oid (packBag cap l).items
      + remOrderMeters oid (packBag cap l).rem = remOrderMeters oid l := by
  induction l generalizing cap with
  | nil => simp [packBag, itemsOrderMeters, remOrderMeters]
  | cons o rest ih =>
    by_cases h1 : cap ≤ 0
    · simp [packBag, h1, itemsOrderMeters]
    · by_cases h2 : o.meters ≤ cap
      · have := ih (cap - o.meters)
        simp only [packBag, if_neg h1, if_pos h2, itemsOrderMeters,
          remOrderMeters, List.map_cons, List.sum_cons, itemOrderMeters] at this ⊢
        by_cases h3 : o.id = oid <;> simp [h3] <;> omega
      · simp only [packBag, if_neg h1, if_neg h2, itemsOrderMeters,
          remOrderMeters, List.map_cons, List.map_nil, List.sum_cons,
          List.sum_nil, itemOrderMeters]
        by_cases h3 : o.id = oid <;> simp [h3] <;> omega

/-- One pass of the bag-filling loop makes strict progress on the termination
measure as soon as the capacity is positive and orders remain. -/
theorem packBag_measure (cap : Int) (l : List RemOrder) (hc : 0 < cap)
    (hl : l ≠ []) : remMeasure (packBag cap l).rem < remMeasure l := by
  induction l generalizing cap with
  | nil => exact absurd rfl hl
  | cons o rest ih =>
    by_cases h1 : cap ≤ 0
    · omega
    · by_cases h2 : o.meters ≤ cap
      · simp only [packBag, if_neg h1, if_pos h2]
        match rest, ih with
        | [], _ => simp [packBag, remMeasure]
        | r :: t, ih =>
          by_cases h4 : cap - o.meters ≤ 0
          · have h5 : cap - o.meters = 0 := by omega
            simp [packBag, h5, remMeasure]
          · have := ih (cap - o.meters) (by omega) (by simp)
            simp only [remMeasure, List.map_cons, List.sum_cons] at this ⊢
            omega
      · simp only [packBag, if_neg h1, if_neg h2, remMeasure, List.map_cons,
          List.sum_cons]
        omega

@[simp] theorem bagsOrderMeters_nil (oid : String) : bagsOrderMeters oid [] = 0 := rfl

@[simp] theorem bagsOrderMeters_cons (oid : String) (b : Bag) (bs : List Bag) :
    bagsOrderMeters oid (b :: bs)
      = itemsOrderMeters oid b.items + bagsOrderMeters oid bs := by
  simp [bagsOrderMeters]

/-- Every bag emitted by the `while` loop satisfies the capacity bound. -/
theorem bagsAux_total_le (target : Int) (ht : 0 ≤ target) :
    ∀ (fuel : Nat) (l : List RemOrder) (n : Nat) (b : Bag),
      b ∈ bagsAux target fuel l n → b.totalMeters ≤ target := by
  intro fuel
  induction fuel with
  | zero => intro l n b hb; cases l <;> simp [bagsAux] at hb
  | succ f ih =>
    intro l n b hb
    cases l with
    | nil => simp [bagsAux] at hb
    | cons o rest =>
      simp only [bagsAux, List.mem_cons] at hb
      rcases hb with rfl | hb
      · have := packBag_cap_nonneg target (o :: rest) ht
        simp only []
        omega
      · exact ih _ _ b hb

/-- Every bag emitted by the `while` loop records as `totalMeters` exactly the
sum of its items' meters. -/
theorem bagsAux_total_eq_itemsSum (target : Int) :
    ∀ (fuel : Nat) (l : List RemOrder) (n : Nat) (b : Bag),
      b ∈ bagsAux target fuel l n → b.totalMeters = itemsSum b.items := by
  intro fuel
  induction fuel with
  | zero => intro l n b hb; cases l <;> simp [bagsAux] at hb
  | succ f ih =>
    intro l n b hb
    cases l with
    | nil => simp [bagsAux] at hb
    | cons o rest =>
      simp only [bagsAux, List.mem_cons] at hb
      rcases hb with rfl | hb
      · have := packBag_itemsSum target (o :: rest)
        simp only []
        omega
      · exact ih _ _ b hb

/-- Bags emitted by the `while` loop are numbered consecutively starting at
the given counter (`bagNum++`, line 239). -/
theorem bagsAux_map_bagNumber (target : Int) :
    ∀ (fuel : Nat) (l : List RemOrder) (n : Nat),
      (bagsAux target fuel l n).map (fun b => b.bagNumber)
        = List.range' n (bagsAux target fuel l n).length := by
  intro fuel
  induction fuel with
  | zero => intro l n; cases l <;> simp [bagsAux]
  | succ f ih =>
    intro l n
    cases l with
    | nil => simp [bagsAux]
    | cons o rest =>
      simp only [bagsAux, List.map_cons, List.length_cons, List.range'_succ]
      rw [ih]

/-- With enough fuel (the loop terminates when `0 < target`), the loop
conserves each order's meters: what the bags say order `oid` contributed is
what the pending list owed it. -/
theorem bagsAux_orderMeters (target : Int) (oid : String) (ht : 0 < target) :
    ∀ (fuel : Nat) (l : List RemOrder) (n : Nat), remMeasure l ≤ fuel →
      bagsOrderMeters oid (bagsAux target fuel l n) = remOrderMeters oid l := by
  intro fuel
  induction fuel with
  | zero =>
    intro l n hf
    cases l with
    | nil => simp [bagsAux, remOrderMeters]
    | cons o rest =>
      exfalso
      simp [remMeasure, List.sum_cons] at hf
  | succ f ih =>
    intro l n hf
    cases l with
    | nil => simp [bagsAux, remOrderMeters]
    | cons o rest =>
      have hm := packBag_measure target (o :: rest) ht (by simp)
      have hrec := ih (packBag target (o :: rest)).rem (n + 1) (by omega)
      have hcons := packBag_orderMeters oid target (o :: rest)
      simp only [bagsAux, bagsOrderMeters_cons]
      rw [hrec]
      exact hcons

/-- Every bag except the last one produced by the `while` loop is exactly
full: a bag is only closed with orders still pending when its capacity
reached zero. -/
theorem bagsAux_dropLast (target : Int) (ht : 0 ≤ target) :
    ∀ (fuel : Nat) (l : List RemOrder) (n : Nat) (b : Bag),
      b ∈ (bagsAux target fuel l n).dropLast → b.totalMeters = target := by
  intro fuel
  induction fuel with
  | zero => intro l n b hb; cases l <;> simp [bagsAux] at hb
  | succ f ih =>
    intro l n b hb
    cases l with
    | nil => simp [bagsAux] at hb
    | cons o rest =>
      simp only [bagsAux] at hb
      cases h3 : bagsAux target f (packBag target (o :: rest)).rem (n + 1) with
      | nil => rw [h3] at hb; simp at hb
      | cons b2 t2 =>
        rw [h3, List.dropLast_cons₂] at hb
        rcases List.mem_cons.mp hb with rfl | hb2
        · have hrem : (packBag target (o :: rest)).rem ≠ [] := by
            intro he
            rw [he] at h3
            simp [bagsAux] at h3
          have hle := packBag_cap_of_rem target (o :: rest) hrem
          have hge := packBag_cap_nonneg target (o :: rest) ht
          simp only []
          omega
        · exact ih _ _ b (h3 ▸ hb2)

theorem posSum_nonneg (l : List InventoryReel) : 0 ≤ posSum l := by
  induction l with
  | nil => simp [posSum]
  | cons r rs ih =>
    simp only [posSum, List.map_cons, List.sum_cons] at ih ⊢
    have : (0 : Int) ≤ max 0 r.metersAvailable := le_max_left 0 _
    omega

/-- The sorted copy holds the same total meters as the working inventory. -/
theorem posSum_sortInv (l : List InventoryReel) : posSum (sortInv l) = posSum l := by
  have h := List.perm_insertionSort
    (fun a b : InventoryReel => a.metersAvailable ≤ b.metersAvailable) l
  exact List.Perm.sum_eq (h.map fun r => max 0 r.metersAvailable)

/-- Each inventory item pushed by the top-up loop carries exactly its take, so
the pushed items sum to the filled amount. -/
theorem topUpLoop_itemsSum (need : Int) (l : List InventoryReel) :
    itemsSum (topUpLoop need l).items = (topUpLoop need l).filled := by
  induction l generalizing need with
  | nil => simp [topUpLoop]
  | cons r rs ih =>
    by_cases h1 : need ≤ 0
    · simp [topUpLoop, h1]
    · by_cases h2 : r.metersAvailable ≤ 0
      · simpa [topUpLoop, h1, h2] using ih need
      · have := ih (need - min r.metersAvailable need)
        simp [topUpLoop, h1, h2, BagItem.meters]
        omega

/-- The greedy partial-take scan fills exactly the smaller of the requested
shortfall and the total positive meters available. -/
theorem topUpLoop_filled (need : Int) (l : List InventoryReel) (h : 0 ≤ need) :
    (topUpLoop need l).filled = min need (posSum l) := by
  induction l generalizing need with
  | nil =>
    simp [topUpLoop, posSum]
    omega
  | cons r rs ih =>
    by_cases h1 : need ≤ 0
    · have h0 : need = 0 := le_antisymm h1 h
      subst h0
      have hp := posSum_nonneg (r :: rs)
      have ht : (topUpLoop 0 (r :: rs)).filled = 0 := rfl
      rw [ht]
      omega
    · by_cases h2 : r.metersAvailable ≤ 0
      · have := ih need h
        simp only [topUpLoop, if_neg h1, if_pos h2, posSum, List.map_cons,
          List.sum_cons] at this ⊢
        have hmax : max 0 r.metersAvailable = 0 := by omega
        rw [hmax]
        omega
      · have hrec := ih (need - min r.metersAvailable need) (by omega)
        have hpos := posSum_nonneg rs
        simp only [topUpLoop, if_neg h1, if_neg h2, posSum, List.map_cons,
          List.sum_cons] at hrec ⊢
        have hmax : max 0 r.metersAvailable = r.metersAvailable := by omega
        rw [hmax]
        simp only [posSum] at hpos
        omega

/-- The filled amount is at most the requested shortfall. -/
theorem topUpLoop_filled_le (need : Int) (l : List InventoryReel)
    (h : 0 ≤ need) : (topUpLoop need l).filled ≤ need := by
  rw [topUpLoop_filled need l h]
  exact min_le_left _ _

/-- The filled amount is non-negative. -/
theorem topUpLoop_filled_nonneg (need : Int) (l : List InventoryReel)
    (h : 0 ≤ need) : 0 ≤ (topUpLoop need l).filled := by
  rw [topUpLoop_filled need l h]
  exact le_min h (posSum_nonneg l)

theorem mem_of_getElem_opt {α : Type} {l : List α} {i : Nat} {a : α}
    (h : l[i]? = some a) : a ∈ l := by
  obtain ⟨hlt, he⟩ := List.getElem?_eq_some.mp h
  exact he ▸ List.getElem_mem hlt

/-- When the selected bag is short of the target, `topUpWithInventory` sets
slot `idx` to the topped-up bag and stores the consumed (sorted) inventory. -/
theorem topUpWithInventory_eq (target : Int) (bags : List Bag) (idx : Nat)
    (inv : List InventoryReel) (bag : Bag) (hidx : bags[idx]? = some bag)
    (hn : ¬ max 0 (target - bag.totalMeters) = 0) :
    topUpWithInventory target bags idx inv
      = (bags.set idx (topUpBag target bag inv),
        (topUpLoop (max 0 (target - bag.totalMeters)) (sortInv inv)).inv) := by
  simp only [topUpWithInventory, hidx, if_neg hn, topUpBag]

/-- The topped-up bag's total is the old total plus the filled amount. -/
theorem topUpBag_totalMeters (target : Int) (bag : Bag)
    (inv : List InventoryReel) :
    (topUpBag target bag inv).totalMeters = bag.totalMeters
      + (topUpLoop (max 0 (target - bag.totalMeters)) (sortInv inv)).filled := rfl

/-- Claim C1: for every input list of orders and every inventory state, no bag
produced by a packing pass (`simulateCreateBags`) or modified by an inventory
top-up (`topUpWithInventory`) ever has `totalMeters` greater than the target
capacity (`targetMetersPerBag`, default 5000).  The top-up half is stated for
any ledger whose bags already satisfy the bound, which is exactly what packing
passes produce. -/
theorem c1_capacity_bound (target : Int) (orders : List Order)
    (bags : List Bag) (idx : Nat) (inv : List InventoryReel) (ht : 0 ≤ target)
    (hbags : ∀ b ∈ bags, b.totalMeters ≤ target) :
    (∀ b ∈ simulateCreateBags target orders, b.totalMeters ≤ target) ∧
    (∀ b ∈ (topUpWithInventory target bags idx inv).1,
      b.totalMeters ≤ target) := by
  constructor
  · intro b hb
    exact bagsAux_total_le target ht _ _ _ b hb
  · intro b hb
    cases hx : bags[idx]? with
    | none =>
      simp only [topUpWithInventory, hx] at hb
      exact hbags b hb
    | some bag =>
      by_cases hn : max 0 (target - bag.totalMeters) = 0
      · simp only [topUpWithInventory, hx, if_pos hn] at hb
        exact hbags b hb
      · simp only [topUpWithInventory, hx, if_neg hn] at hb
        rcases List.mem_or_eq_of_mem_set hb with h | rfl
        · exact hbags b h
        · have hbag := hbags bag (mem_of_getElem_opt hx)
          have hf := topUpLoop_filled_le (max 0 (target - bag.totalMeters))
            (sortInv inv) (le_max_left 0 _)
          simp only []
          omega

theorem c1_capacity_bound_witness :
    (simulateCreateBags 5000
      [⟨"o1", "alpha", "ThreadX", 7000⟩, ⟨"o2", "beta", "ThreadY", 1200⟩]).Forall
      (fun b => b.totalMeters ≤ 5000) :=
  List.forall_iff_forall_mem.mpr
    ((c1_capacity_bound 5000
      [⟨"o1", "alpha", "ThreadX", 7000⟩, ⟨"o2", "beta", "ThreadY", 1200⟩]
      [⟨1, [], 4000, 0⟩] 0 [⟨"r1", 800⟩] (by decide) (by decide)).1)

/-- Claim C2: for every bag produced by a packing pass and for every bag after
an inventory top-up, the bag's `totalMeters` field equals the sum of the
`meters` fields of the items in its items list.  The top-up half is stated for
any ledger whose bags already satisfy the invariant, which is exactly what
packing passes produce. -/
theorem c2_total_eq_itemsSum (target : Int) (orders : List Order)
    (bags : List Bag) (idx : Nat) (inv : List InventoryReel)
    (hbags : ∀ b ∈ bags, b.totalMeters = itemsSum b.items) :
    (∀ b ∈ simulateCreateBags target orders,
      b.totalMeters = itemsSum b.items) ∧
    (∀ b ∈ (topUpWithInventory target bags idx inv).1,
      b.totalMeters = itemsSum b.items) := by
  constructor
  · intro b hb
    exact bagsAux_total_eq_itemsSum target _ _ _ b hb
  · intro b hb
    cases hx : bags[idx]? with
    | none =>
      simp only [topUpWithInventory, hx] at hb
      exact hbags b hb
    | some bag =>
      by_cases hn : max 0 (target - bag.totalMeters) = 0
      · simp only [topUpWithInventory, hx, if_pos hn] at hb
        exact hbags b hb
      · simp only [topUpWithInventory, hx, if_neg hn] at hb
        rcases List.mem_or_eq_of_mem_set hb with h | rfl
        · exact hbags b h
        · have hbag := hbags bag (mem_of_getElem_opt hx)
          have hsum := topUpLoop_itemsSum (max 0 (target - bag.totalMeters))
            (sortInv inv)
          simp only [itemsSum_append]
          omega

theorem c2_total_eq_itemsSum_witness :
    (simulateCreateBags 5000
      [⟨"o1", "alpha", "ThreadX", 7000⟩, ⟨"o2", "beta", "ThreadY", 1200⟩]).Forall
      (fun b => b.totalMeters = itemsSum b.items) :=
  List.forall_iff_forall_mem.mpr
    ((c2_total_eq_itemsSum 5000
      [⟨"o1", "alpha", "ThreadX", 7000⟩, ⟨"o2", "beta", "ThreadY", 1200⟩]
      [⟨1, [BagItem.order "o9" "g" 300], 300, 0⟩] 0 [⟨"r1", 800⟩]
      (by decide)).1)

/-- Claim C3 is false on `simulateCreateBags`: a 6000 m order against a 5000 m
target is split across two bags (the `// split the order` branch, DailyBags.tsx
lines 229-234), so its meters appear in two bags, not exactly one. -/
theorem c3_atomicity_counterexample :
    ((simulateCreateBags 5000 [⟨"o1", "gamma", "ThreadZ", 6000⟩]).countP
      (fun b => hasOrderItem "o1" b)) = 2 := by
  decide

/-- Claim C3 (amended): `simulateCreateBags` may split one order's meters
across consecutive bags, so a reel is not atomic; what holds instead is
conservation: for every order id, the meters attributed to that id across all
produced bags equal the meters that id carried in the input orders. -/
theorem c3_order_conservation (target : Int) (orders : List Order)
    (oid : String) (ht : 0 < target) :
    bagsOrderMeters oid (simulateCreateBags target orders)
      = ordersMeters oid orders := by
  simp only [simulateCreateBags]
  rw [bagsAux_orderMeters target oid ht _ _ 1 (by omega)]
  simp only [remOrderMeters, ordersMeters, List.map_map]
  rfl

theorem c3_order_conservation_witness :
    bagsOrderMeters "o1" (simulateCreateBags 5000 [⟨"o1", "gamma", "ThreadZ", 6000⟩])
      = ordersMeters "o1" [⟨"o1", "gamma", "ThreadZ", 6000⟩] :=
  c3_order_conservation 5000 [⟨"o1", "gamma", "ThreadZ", 6000⟩] "o1" (by decide)

/-- Claim C4 is false on `simulateCreateBags`: two orders for different
products ("BrandA X 6" and "BrandB Y 9") of 1000 m each end up as items of the
same bag — the packer never looks at the product field. -/
theorem c4_product_mixing_counterexample :
    ∃ b ∈ simulateCreateBags 5000
      [⟨"a", "cust1", "BrandA X 6", 1000⟩, ⟨"b", "cust2", "BrandB Y 9", 1000⟩],
      BagItem.order "a" "cust1" 1000 ∈ b.items ∧
        BagItem.order "b" "cust2" 1000 ∈ b.items := by
  decide

/-- Claim C4 (amended): bags can mix products.  `simulateCreateBags` projects
each order to `{ id, customer, meters }` (line 216) before packing, so its
output is invariant under arbitrary relabelling of the orders' product field —
product identity plays no role in bag formation. -/
theorem c4_product_independence (target : Int) (orders : List Order)
    (f : Order → String) :
    simulateCreateBags target (orders.map fun o => { o with product := f o })
      = simulateCreateBags target orders := by
  simp only [simulateCreateBags, List.map_map]
  rfl

/-- Claim C9 is false on `handleCreateBags` (DailyBags.tsx lines 260-270): a
second packing pass over a ledger that already holds bags numbered 1 and 2
produces a bag numbered 1 again — `setBags(baseBags)` replaces the ledger and
numbering restarts at 1 instead of being offset by the ledger's bag count. -/
theorem c9_numbering_counterexample :
    (handleCreateBags 5000 (some [⟨1, [], 5000, 0⟩, ⟨2, [], 5000, 0⟩])
      [⟨"x", "cust", "P", 1000⟩]).map (fun b => b.bagNumber) = [1] := by
  decide

/-- Claim C9 (amended): bags produced in one pass are numbered 1..N
consecutively, but `handleCreateBags` replaces the ledger with the new pass's
bags (`setBags(baseBags)`, line 268) without offsetting, so numbering restarts
at 1 on every pass regardless of the previous ledger contents and numbers are
reused. -/
theorem c9_numbering_amended (target : Int) (old : Option (List Bag))
    (orders : List Order) :
    (handleCreateBags target old orders).map (fun b => b.bagNumber)
      = List.range' 1 (handleCreateBags target old orders).length := by
  simp only [handleCreateBags, simulateCreateBags]
  exact bagsAux_map_bagNumber target _ _ 1

/-- Claim C10: for every input list of orders with non-negative meters, every
bag produced by a packing pass except possibly the last has `totalMeters`
exactly equal to the target capacity, so at most one partial bag exists per
pass and it is the final one — the property `handleCreateBags` relies on when
it inspects only the last bag for a shortfall (lines 264-274). -/
theorem c10_all_but_last_full (target : Int) (orders : List Order)
    (ht : 0 < target) (hm : ∀ o ∈ orders, 0 ≤ o.meters) :
    ∀ b ∈ (simulateCreateBags target orders).dropLast,
      b.totalMeters = target := by
  intro b hb
  exact bagsAux_dropLast target (le_of_lt ht) _ _ _ b hb

theorem c10_all_but_last_full_witness :
    ((simulateCreateBags 5000
      [⟨"o1", "a", "P", 2000⟩, ⟨"o2", "b", "P", 2000⟩,
        ⟨"o3", "c", "P", 2000⟩]).dropLast).Forall
      (fun b => b.totalMeters = 5000) :=
  List.forall_iff_forall_mem.mpr
    (c10_all_but_last_full 5000
      [⟨"o1", "a", "P", 2000⟩, ⟨"o2", "b", "P", 2000⟩, ⟨"o3", "c", "P", 2000⟩]
      (by decide) (by decide))

/-- Claim C5 is false on `topUpWithInventory`: a bag at 4000 m (target 5000)
with reels A = 3000 m and B = 500 m is topped up by consuming B first (the
sort on line 300 is ascending — smallest first, not descending) and then a
500 m fraction of reel A (`take = min(available, need)`, line 304 — not one
whole reel at a time).  The claimed algorithm would instead skip A entirely
(4000 + 3000 > 5000), consume B whole and stop at 4500 m leaving A at 3000 m;
the code reaches 5000 m and leaves A partially consumed at 2500 m. -/
theorem c5_topup_counterexample :
    topUpWithInventory 5000 [⟨1, [], 4000, 0⟩] 0 [⟨"A", 3000⟩, ⟨"B", 500⟩]
      = ([⟨1, [BagItem.inventory "B" 500, BagItem.inventory "A" 500], 5000, 1000⟩],
        [⟨"B", 0⟩, ⟨"A", 2500⟩]) := by
  decide

/-- Claim C5 (amended): `topUpWithInventory` sorts the whole working inventory
(no brand/product matching — reels carry none) by `metersAvailable`
*ascending* and takes `min(available, need)` from each positive reel — a
fraction of a reel when needed — until the shortfall reaches 0 or inventory is
exhausted; consequently the bag ends at its old total plus the smaller of its
shortfall and the total positive meters available. -/
theorem c5_topup_fill (target : Int) (bags : List Bag) (idx : Nat)
    (inv : List InventoryReel) (bag : Bag) (hidx : bags[idx]? = some bag) :
    ∃ bag', ((topUpWithInventory target bags idx inv).1)[idx]? = some bag' ∧
      bag'.totalMeters = bag.totalMeters
        + min (max 0 (target - bag.totalMeters)) (posSum inv) := by
  have hp := posSum_nonneg inv
  by_cases hn : max 0 (target - bag.totalMeters) = 0
  · refine ⟨bag, ?_, ?_⟩
    · simp only [topUpWithInventory, hidx, if_pos hn]
    · rw [hn]
      omega
  · have hlt : idx < bags.length := (List.getElem?_eq_some.mp hidx).1
    have hfill : (topUpLoop (max 0 (target - bag.totalMeters)) (sortInv inv)).filled
        = min (max 0 (target - bag.totalMeters)) (posSum inv) := by
      rw [topUpLoop_filled _ _ (le_max_left 0 _), posSum_sortInv]
    refine ⟨topUpBag target bag inv, ?_, ?_⟩
    · rw [topUpWithInventory_eq target bags idx inv bag hidx hn]
      exact List.getElem?_set_self hlt
    · rw [topUpBag_totalMeters, hfill]

theorem c5_topup_fill_witness :
    ∃ bag', ((topUpWithInventory 5000 [⟨1, [], 4000, 0⟩] 0
        [⟨"A", 3000⟩, ⟨"B", 500⟩]).1)[0]? = some bag' ∧
      bag'.totalMeters = 4000
        + min (max 0 (5000 - 4000)) (posSum [⟨"A", 3000⟩, ⟨"B", 500⟩]) :=
  c5_topup_fill 5000 [⟨1, [], 4000, 0⟩] 0 [⟨"A", 3000⟩, ⟨"B", 500⟩]
    ⟨1, [], 4000, 0⟩ (by decide)

/-- Claim C6: when the inventory cannot cover the shortfall,
`topUpWithInventory` still completes (it is a total function in this
embedding, mirroring the source's fall-through to the "Inventory insufficient"
toast, lines 328-336): the bag absorbs all positive inventory, stays below the
target, and the results list renders it with the "Partial" badge (lines
646-650). -/
theorem c6_exhausted_inventory (target : Int) (bags : List Bag) (idx : Nat)
    (inv : List InventoryReel) (bag : Bag) (hidx : bags[idx]? = some bag)
    (hexh : posSum inv < target - bag.totalMeters) :
    ∃ bag', ((topUpWithInventory target bags idx inv).1)[idx]? = some bag' ∧
      bag'.totalMeters = bag.totalMeters + posSum inv ∧
      bag'.totalMeters < target ∧
      bagBadge target bag' = "Partial" := by
  have hp := posSum_nonneg inv
  have hn : ¬ (max 0 (target - bag.totalMeters) = 0) := by omega
  have hlt : idx < bags.length := (List.getElem?_eq_some.mp hidx).1
  have hfill : (topUpLoop (max 0 (target - bag.totalMeters)) (sortInv inv)).filled
      = posSum inv := by
    rw [topUpLoop_filled _ _ (le_max_left 0 _), posSum_sortInv]
    omega
  have htot : (topUpBag target bag inv).totalMeters
      = bag.totalMeters + posSum inv := by
    rw [topUpBag_totalMeters, hfill]
  refine ⟨topUpBag target bag inv, ?_, htot, ?_, ?_⟩
  · rw [topUpWithInventory_eq target bags idx inv bag hidx hn]
    exact List.getElem?_set_self hlt
  · omega
  · have hne : ¬ target ≤ (topUpBag target bag inv).totalMeters := by omega
    simp only [bagBadge, if_neg hne]

theorem c6_exhausted_inventory_witness :
    ∃ bag', ((topUpWithInventory 5000 [⟨1, [], 4000, 0⟩] 0
        [⟨"r1", 300⟩, ⟨"r2", 400⟩]).1)[0]? = some bag' ∧
      bag'.totalMeters = 4000 + posSum [⟨"r1", 300⟩, ⟨"r2", 400⟩] ∧
      bag'.totalMeters < 5000 ∧
      bagBadge 5000 bag' = "Partial" :=
  c6_exhausted_inventory 5000 [⟨1, [], 4000, 0⟩] 0
    [⟨"r1", 300⟩, ⟨"r2", 400⟩] ⟨1, [], 4000, 0⟩ (by decide) (by decide)

end DailyBags


namespace InvMgmt

theorem consumeAlloc_lookup_none (inv : List Reel) (rid : String) (take : Int)
    (h : lookupReel inv rid = none) : consumeAlloc inv rid take = none := by
  induction inv with
  | nil => simp [consumeAlloc]
  | cons r rs ih =>
    by_cases hx : r.id = rid
    · simp [lookupReel, hx] at h
    · simp only [lookupReel, if_neg hx] at h
      simp [consumeAlloc, hx, ih h]

theorem consumeAlloc_over (inv : List Reel) (rid : String) (take : Int)
    (r : Reel) (h : lookupReel inv rid = some r) (hover : r.reels < take) :
    consumeAlloc inv rid take = none := by
  induction inv with
  | nil => simp [lookupReel] at h
  | cons x xs ih =>
    by_cases hx : x.id = rid
    · simp only [lookupReel, if_pos hx, Option.some.injEq] at h
      subst h
      simp [consumeAlloc, hx, hover]
    · simp only [lookupReel, if_neg hx] at h
      simp [consumeAlloc, hx, ih h]

theorem entryOk_iff (inv : List Reel) (e : String × Int) (r : Reel)
    (hr : lookupReel inv e.1 = some r) : entryOk inv e ↔ e.2 ≤ r.reels := by
  rw [entryOk, hr]

theorem entryOk_not (inv : List Reel) (e : String × Int)
    (hr : lookupReel inv e.1 = none) : ¬ entryOk inv e := by
  rw [entryOk, hr]
  exact fun h => h

theorem entryOk_congr (inv₁ inv₂ : List Reel) (e : String × Int)
    (h : lookupReel inv₁ e.1 = lookupReel inv₂ e.1) :
    entryOk inv₁ e ↔ entryOk inv₂ e := by
  unfold entryOk
  rw [h]

theorem consumeAlloc_some (inv : List Reel) (rid : String) (take : Int)
    (r : Reel) (h : lookupReel inv rid = some r) (hle : take ≤ r.reels) :
    ∃ inv', consumeAlloc inv rid take = some (mkAllocItem r take, inv') ∧
      lookupReel inv' rid = some (decReel r take) ∧
      ∀ rid', rid' ≠ rid → lookupReel inv' rid' = lookupReel inv rid' := by
  induction inv with
  | nil => simp [lookupReel] at h
  | cons x xs ih =>
    by_cases hx : x.id = rid
    · simp only [lookupReel, if_pos hx, Option.some.injEq] at h
      subst h
      have hno : ¬ x.reels < take := by omega
      refine ⟨decReel x take :: xs, ?_, ?_, ?_⟩
      · simp [consumeAlloc, hx, hno]
      · simp [lookupReel, decReel, hx]
      · intro rid' hne
        have hxne : ¬ (decReel x take).id = rid' := by
          simp only [decReel]
          rw [hx]
          exact fun he => hne he.symm
        have hxne2 : ¬ x.id = rid' := by
          rw [hx]
          exact fun he => hne he.symm
        simp [lookupReel, hxne, hxne2]
    · simp only [lookupReel, if_neg hx] at h
      obtain ⟨inv0, hc, hl, hp⟩ := ih h
      refine ⟨x :: inv0, ?_, ?_, ?_⟩
      · simp [consumeAlloc, hx, hc]
      · simp [lookupReel, hx, hl]
      · intro rid' hne
        by_cases hx2 : x.id = rid'
        · simp [lookupReel, hx2]
        · simp [lookupReel, hx2, hp rid' hne]

theorem allocLoop_ok (entries : List (String × Int)) (inv : List Reel)
    (hND : (entries.map Prod.fst).Nodup) (hok : ∀ e ∈ entries, entryOk inv e) :
    ∃ its inv', allocLoop entries inv = some (its, inv') ∧
      its.length = entries.length ∧
      (∀ it ∈ its, it.isInv = true) ∧
      (∀ e ∈ entries, lookupReel inv' e.1
        = (lookupReel inv e.1).map fun r => decReel r e.2) ∧
      (∀ rid, rid ∉ entries.map Prod.fst
        → lookupReel inv' rid = lookupReel inv rid) := by
  induction entries generalizing inv with
  | nil => exact ⟨[], inv, rfl, rfl, by simp, by simp, fun _ _ => rfl⟩
  | cons e es ih =>
    have hoke : entryOk inv e := hok e (by simp)
    simp only [List.map_cons, List.nodup_cons] at hND
    obtain ⟨hnotin, hNDtail⟩ := hND
    cases hr : lookupReel inv e.1 with
    | none => exact absurd hoke (entryOk_not inv e hr)
    | some r =>
      have hoke2 := (entryOk_iff inv e r hr).mp hoke
      obtain ⟨inv₁, hc, hl1, hp1⟩ := consumeAlloc_some inv e.1 e.2 r hr hoke2
      have hok1 : ∀ e' ∈ es, entryOk inv₁ e' := by
        intro e' he'
        have hne : e'.1 ≠ e.1 := by
          intro hcon
          exact hnotin (hcon ▸ List.mem_map_of_mem Prod.fst he')
        exact (entryOk_congr inv₁ inv e' (hp1 e'.1 hne)).mpr (hok e' (by simp [he']))
      obtain ⟨its, inv', hloop, hlen, hinvk, hlook, hpres⟩ := ih inv₁ hNDtail hok1
      refine ⟨mkAllocItem r e.2 :: its, inv', ?_, by simp [hlen], ?_, ?_, ?_⟩
      · simp [allocLoop, hc, hloop]
      · intro it hit
        rcases List.mem_cons.mp hit with rfl | h2
        · rfl
        · exact hinvk it h2
      · intro e' he'
        rcases List.mem_cons.mp he' with rfl | h2
        · rw [hpres e'.1 hnotin, hl1, hr]
          rfl
        · rw [hlook e' h2]
          have hne : e'.1 ≠ e.1 := by
            intro hcon
            exact hnotin (hcon ▸ List.mem_map_of_mem Prod.fst h2)
          rw [hp1 e'.1 hne]
      · intro rid hrid
        simp only [List.map_cons, List.mem_cons] at hrid
        push_neg at hrid
        rw [hpres rid hrid.2, hp1 rid hrid.1]

theorem allocLoop_fails (entries : List (String × Int)) (inv : List Reel)
    (hND : (entries.map Prod.fst).Nodup)
    (hex : ∃ e ∈ entries, ¬ entryOk inv e) : allocLoop entries inv = none := by
  induction entries generalizing inv with
  | nil => simp at hex
  | cons e es ih =>
    simp only [List.map_cons, List.nodup_cons] at hND
    obtain ⟨hnotin, hNDtail⟩ := hND
    by_cases hok1 : entryOk inv e
    · cases hr : lookupReel inv e.1 with
      | none => exact absurd hok1 (entryOk_not inv e hr)
      | some r =>
        have hok2 := (entryOk_iff inv e r hr).mp hok1
        obtain ⟨inv₁, hc, hl1, hp1⟩ := consumeAlloc_some inv e.1 e.2 r hr hok2
        obtain ⟨e', he', hno⟩ := hex
        rcases List.mem_cons.mp he' with rfl | h2
        · exact absurd hok1 hno
        · have hne : e'.1 ≠ e.1 := by
            intro hcon
            exact hnotin (hcon ▸ List.mem_map_of_mem Prod.fst h2)
          have hno1 : ¬ entryOk inv₁ e' := by
            rw [entryOk_congr inv₁ inv e' (hp1 e'.1 hne)]
            exact hno
          have := ih inv₁ hNDtail ⟨e', h2, hno1⟩
          simp [allocLoop, hc, this]
    · cases hr : lookupReel inv e.1 with
      | none =>
        simp [allocLoop, consumeAlloc_lookup_none inv e.1 e.2 hr]
      | some r =>
        have hover : r.reels < e.2 := by
          by_contra hcon
          push_neg at hcon
          exact hok1 ((entryOk_iff inv e r hr).mpr hcon)
        simp [allocLoop, consumeAlloc_over inv e.1 e.2 r hr hover]

/-- Claim C7: `applyManualTopUp` is all-or-nothing.  It returns `none` (a
ValidationError with no state mutation — the mutated copies are local and
discarded) whenever the allocation's summed meters differ from the bag's
exact shortfall, or some positive entry references an unknown stock id or
requests more reels than its record holds; on success it appends one
inventory item per (positive) entry, adds the shortfall to `totalMeters` and
`filledFromInventoryMeters`, and decrements each referenced stock's reel
count by the requested amount.  Entry ids are distinct because the
allocations come from a JavaScript `Record`'s `Object.entries`. -/
theorem c7_manual_allocate (target : Int) (bags : List MBag) (idx : Nat)
    (allocations : List (String × Int)) (inv : List Reel) (bag : MBag)
    (hidx : bags[idx]? = some bag)
    (hND : ((allocations.filter fun e => 0 < e.2).map Prod.fst).Nodup) :
    (sumMetersOf inv (allocations.filter fun e => 0 < e.2)
        ≠ max 0 (target - bag.totalMeters)
      → applyManualTopUp target bags idx allocations inv = none) ∧
    ((∃ e ∈ allocations.filter fun e => 0 < e.2, ¬ entryOk inv e)
      → applyManualTopUp target bags idx allocations inv = none) ∧
    (sumMetersOf inv (allocations.filter fun e => 0 < e.2)
        = max 0 (target - bag.totalMeters)
      → (∀ e ∈ allocations.filter fun e => 0 < e.2, entryOk inv e)
      → ∃ newItems inv',
          applyManualTopUp target bags idx allocations inv
            = some (bags.set idx
                { bag with
                  items := bag.items ++ newItems,
                  totalMeters := bag.totalMeters
                    + max 0 (target - bag.totalMeters),
                  filledFromInventory := bag.filledFromInventory
                    + max 0 (target - bag.totalMeters) }, inv') ∧
          newItems.length = (allocations.filter fun e => 0 < e.2).length ∧
          (∀ it ∈ newItems, it.isInv = true) ∧
          (∀ e ∈ allocations.filter fun e => 0 < e.2,
            lookupReel inv' e.1
              = (lookupReel inv e.1).map fun r => decReel r e.2)) := by
  refine ⟨?_, ?_, ?_⟩
  · intro hne
    simp only [applyManualTopUp, hidx, if_neg hne]
  · intro hex
    have hfail := allocLoop_fails _ inv hND hex
    simp only [applyManualTopUp, hidx]
    by_cases hsm : sumMetersOf inv (allocations.filter fun e => 0 < e.2)
        = max 0 (target - bag.totalMeters)
    · rw [if_pos hsm, hfail]
    · rw [if_neg hsm]
  · intro hsm hok
    obtain ⟨its, inv', hloop, hlen, hinvk, hlook, _⟩ :=
      allocLoop_ok _ inv hND hok
    refine ⟨its, inv', ?_, hlen, hinvk, hlook⟩
    simp only [applyManualTopUp, hidx, if_pos hsm, hloop, hsm]
    simp

theorem c7_manual_allocate_witness :
    ∃ newItems inv',
      applyManualTopUp 5000 [⟨1, [], 3500, 0⟩] 0 [("sA", 1), ("sB", 1)]
          [⟨"sA", 3000, 3, 1000, some "BrandA", some "ProdX"⟩,
            ⟨"sB", 1000, 2, 500, some "BrandA", some "ProdX"⟩]
        = some ([⟨1, newItems, 5000, 1500⟩], inv') ∧
      newItems.length = 2 ∧
      (∀ it ∈ newItems, it.isInv = true) ∧
      (∀ e ∈ ([("sA", (1 : Int)), ("sB", 1)].filter fun e => 0 < e.2),
        lookupReel inv' e.1
          = (lookupReel [⟨"sA", 3000, 3, 1000, some "BrandA", some "ProdX"⟩,
              ⟨"sB", 1000, 2, 500, some "BrandA", some "ProdX"⟩] e.1).map
            fun r => decReel r e.2) :=
  (c7_manual_allocate 5000 [⟨1, [], 3500, 0⟩] 0 [("sA", 1), ("sB", 1)]
    [⟨"sA", 3000, 3, 1000, some "BrandA", some "ProdX"⟩,
      ⟨"sB", 1000, 2, 500, some "BrandA", some "ProdX"⟩]
    ⟨1, [], 3500, 0⟩ (by decide) (by decide)).2.2 (by decide) (by decide)

end InvMgmt

namespace OrdersApi

theorem mem_le_foldr_max (l : List Nat) (a : Nat) (h : a ∈ l) :
    a ≤ l.foldr max 0 := by
  induction l with
  | nil => simp at h
  | cons b t ih =>
    rcases List.mem_cons.mp h with rfl | h2
    · exact le_max_left a _
    · exact le_trans (ih h2) (le_max_right b _)

theorem lookupOrder_append (orders : List OrderRow) (new : OrderRow)
    (h : ∀ o ∈ orders, o.id ≠ new.id) :
    lookupOrder (orders ++ [new]) new.id = some new := by
  induction orders with
  | nil => simp [lookupOrder]
  | cons o os ih =>
    have hne : o.id ≠ new.id := h o (by simp)
    simp only [List.cons_append, lookupOrder, if_neg hne]
    exact ih fun o' ho' => h o' (by simp [ho'])

theorem lookupInv_map (f : InvRow → InvRow)
    (hf : ∀ r, (f r).productId = r.productId) (inv : List InvRow) (pid : Nat) :
    lookupInv (inv.map f) pid = (lookupInv inv pid).map f := by
  induction inv with
  | nil => simp [lookupInv]
  | cons r rs ih =>
    by_cases hp : r.productId = pid
    · have : (f r).productId = pid := by rw [hf r, hp]
      simp [lookupInv, hp, this]
    · have : ¬ (f r).productId = pid := by rw [hf r]; exact hp
      simp [lookupInv, hp, this, ih]

theorem lookupInv_unique (inv : List InvRow) (pid : Nat)
    (hND : (inv.map fun r => r.productId).Nodup) (r : InvRow) (hr : r ∈ inv)
    (hpid : r.productId = pid) : lookupInv inv pid = some r := by
  induction inv with
  | nil => simp at hr
  | cons x xs ih =>
    simp only [List.map_cons, List.nodup_cons] at hND
    obtain ⟨hnotin, hNDtail⟩ := hND
    rcases List.mem_cons.mp hr with rfl | h2
    · simp [lookupInv, hpid]
    · have hxne : ¬ x.productId = pid := by
        intro hx
        have hm : r.productId ∈ xs.map fun r => r.productId :=
          List.mem_map_of_mem (fun r => r.productId) h2
        rw [hpid, ← hx] at hm
        exact hnotin hm
      simp only [lookupInv, if_neg hxne]
      exact ih hNDtail h2

theorem map_id_of_mem {α : Type} (l : List α) (f : α → α)
    (h : ∀ a ∈ l, f a = a) : l.map f = l := by
  induction l with
  | nil => rfl
  | cons a t ih =>
    simp only [List.map_cons, h a (by simp), ih fun a' ha' => h a' (by simp [ha'])]

theorem lookupInv_pid (inv : List InvRow) (pid : Nat) (r : InvRow)
    (h : lookupInv inv pid = some r) : r.productId = pid := by
  induction inv with
  | nil => simp [lookupInv] at h
  | cons x xs ih =>
    by_cases hp : x.productId = pid
    · simp only [lookupInv, if_pos hp, Option.some.injEq] at h
      rw [h] at hp
      exact hp
    · simp only [lookupInv, if_neg hp] at h
      exact ih h

/-- Claim C8: creating an order and then deleting it restores the inventory
exactly.  `POST` sets the product's inventory to `availableReels - reels` and
`DELETE` sets it back to `inventory[0].reels + order.reels`; with one
inventory row per product (the inventory endpoints update-in-place rather
than inserting duplicates, so the table satisfies this), the round trip is
the identity on the inventory table.  No top-up is involved in these
endpoints (packing state is separate), matching the claim's proviso. -/
theorem c8_create_delete_inverse (db : Db) (customer : String) (pid : Nat)
    (reels : Int) (db' : Db) (oid : Nat)
    (hU : (db.inventory.map fun r => r.productId).Nodup)
    (hc : createOrder db customer pid reels = some (db', oid)) :
    ∃ db'', deleteOrder db' oid = some db'' ∧ db''.inventory = db.inventory := by
  unfold createOrder at hc
  split_ifs at hc with h1 h2 h3 h4
  case _ =>
    rw [Option.some.injEq, Prod.mk.injEq] at hc
    obtain ⟨hdb, hoid⟩ := hc
    subst hdb
    subst hoid
    cases hrow : lookupInv db.inventory pid with
    | none =>
      exfalso
      simp [availReels, hrow] at h4
      omega
    | some row0 =>
      have havail : availReels db pid = row0.reels := by
        simp [availReels, hrow]
      rw [havail] at h4
      have hords : ∀ o ∈ db.orders, o.id ≠ nextOrderId db.orders := by
        intro o ho hcon
        have := mem_le_foldr_max (db.orders.map fun o => o.id) o.id
          (List.mem_map_of_mem (fun o => o.id) ho)
        rw [hcon] at this
        simp only [nextOrderId] at this
        omega
      have hlku : lookupOrder
          (db.orders ++ [⟨nextOrderId db.orders, customer, pid, reels, "pending"⟩])
          (nextOrderId db.orders) = some ⟨nextOrderId db.orders, customer, pid,
            reels, "pending"⟩ :=
        lookupOrder_append db.orders _ hords
      have hfp : ∀ r : InvRow, ((fun r : InvRow =>
          if r.productId = pid then { r with reels := availReels db pid - reels }
          else r) r).productId = r.productId := by
        intro r
        by_cases hp : r.productId = pid
        · simp [hp]
        · simp [hp]
      have hp0 : row0.productId = pid := lookupInv_pid db.inventory pid row0 hrow
      have hinv' : lookupInv (db.inventory.map fun r =>
          if r.productId = pid then { r with reels := availReels db pid - reels }
          else r) pid = some { row0 with reels := availReels db pid - reels } := by
        rw [lookupInv_map _ hfp db.inventory pid, hrow]
        simp [hp0]
      refine ⟨{
          products := db.products,
          inventory := (db.inventory.map fun r =>
            if r.productId = pid then
              { r with reels := availReels db pid - reels }
            else r).map fun r =>
              if r.productId = pid then
                { r with reels := availReels db pid - reels + reels }
              else r,
          orders := (db.orders
            ++ [(⟨nextOrderId db.orders, customer, pid, reels,
                  "pending"⟩ : OrderRow)]).filter
              fun o => o.id != nextOrderId db.orders }, ?_, ?_⟩
      · simp only [deleteOrder, hlku, hinv']
      · simp only [List.map_map]
        apply map_id_of_mem
        intro r hrm
        by_cases hp : r.productId = pid
        · have hludb : lookupInv db.inventory pid = some r :=
            lookupInv_unique db.inventory pid hU r hrm hp
          have hreq : row0 = r := by
            rw [hludb] at hrow
            exact (Option.some.inj hrow).symm
          subst hreq
          simp only [Function.comp, if_pos hp]
          have harith : availReels db pid - reels + reels = row0.reels := by
            omega
          rw [harith]
        · simp [Function.comp, hp]

theorem c8_create_delete_inverse_witness :
    ∃ db'', deleteOrder ⟨[7], [⟨1, 7, 3⟩], [⟨1, "alice", 7, 2, "pending"⟩]⟩ 1
        = some db'' ∧ db''.inventory = [⟨1, 7, 5⟩] :=
  c8_create_delete_inverse ⟨[7], [⟨1, 7, 5⟩], []⟩ "alice" 7 2
    ⟨[7], [⟨1, 7, 3⟩], [⟨1, "alice", 7, 2, "pending"⟩]⟩ 1
    (by decide) (by decide)

end OrdersApi
